import Mathlib

/-!
Verification of the credential-wallet query and record-persistence layer.

Shallow embedding of:
- `IndySdkHolder.get_credentials` (chunked cursor pagination) and
  `IndyHolder.get_credentials` (single-fetch variant),
- `get_credentials_for_presentation_request_by_referent` (multi-referent
  search with dedup/merge and revocation-aware ordering),
- `BaseRecord` tag prefix/strip maps, `save`/`post_save` webhook policy,
  `match_post_filter`, `query`, `retrieve_by_tag_filter`,
- `delete_credential`, `get_mime_type`, `create_revocation_state`.

External collaborators (the indy wallet search cursor, storage backend,
webhook responder) are modelled by their documented contracts: a search
cursor over a fixed, stably ordered result list where `fetch(n)` returns
the next `min(n, remaining)` items and advances the cursor.
-/

/-- Embeds the inner `fetch` loop of `IndySdkHolder.get_credentials`
(src/aries_cloudagent/indy/sdk/holder.py lines 146-164): repeatedly fetch
`CHUNK` items, extend the accumulator, and stop when a batch comes back
short or the accumulator reaches `card` (the `cardinality` bound).  `fuel`
bounds recursion; callers pass enough fuel for the loop to finish. -/
def fetchLoop {α : Type} (creds : List α) (CHUNK card : Nat) :
    Nat → List α → Nat → List α × Nat
  | pos, acc, 0 => (acc, pos)
  | pos, acc, fuel + 1 =>
    if acc.length < card then
      let batch := (creds.drop pos).take CHUNK
      if batch.length < CHUNK then (acc ++ batch, pos + batch.length)
      else fetchLoop creds CHUNK card (pos + batch.length) (acc ++ batch) fuel
    else (acc, pos)

/-- Embeds one call of the `fetch` helper of `IndySdkHolder.get_credentials`:
`CHUNK = min(record_count, limit or record_count, IndyHolder.CHUNK)` and
`cardinality = min(limit or record_count, record_count)`, where the chunk
cap (`IndyHolder.CHUNK`, 256 in the repository) is the `cap` parameter.
Returns the fetched items and the new cursor position.  Note `limit or
record_count` in the source treats `limit == 0` as "all remaining". -/
def fetchSdk {α : Type} (creds : List α) (pos limit cap : Nat) : List α × Nat :=
  let N := creds.length
  let lim := if limit = 0 then N else limit
  let CHUNK := min N (min lim cap)
  let card := min lim N
  fetchLoop creds CHUNK card pos [] (card + 1)

/-- Embeds `IndySdkHolder.get_credentials(start, count, wql)` over a backing
result set `creds` (the wallet's stably ordered result list for the query):
if `start > 0`, a skip fetch of `start` items moves the cursor; a collect
fetch of `count` items produces the returned credentials.  The chunk cap is
the `cap` parameter (256 in the repository). -/
def get_credentials_sdk {α : Type} (cap start count : Nat) (creds : List α) :
    List α :=
  let pos1 := if 0 < start then (fetchSdk creds 0 start cap).2 else 0
  (fetchSdk creds pos1 count cap).1

/-- Embeds `IndyHolder.get_credentials(start, count, wql)` of
src/aries_cloudagent/holder/indy.py lines 130-161: one fetch of `start`
items discarded to move the cursor, then one fetch of `count` items
returned.  A wallet fetch of `n` returns the next `min(n, remaining)`
items. -/
def get_credentials_simple {α : Type} (start count : Nat) (creds : List α) :
    List α :=
  let pos1 := if 0 < start then min start creds.length else 0
  (creds.drop pos1).take count

theorem fetchLoop_chunk_eq_card {α : Type} (creds : List α) (pos k : Nat) :
    fetchLoop creds k k pos [] (k + 1) =
      ((creds.drop pos).take k, pos + ((creds.drop pos).take k).length) := by
  cases k with
  | zero => simp [fetchLoop]
  | succ k =>
    simp only [fetchLoop, List.length_nil, Nat.succ_eq_add_one]
    rw [if_pos (Nat.succ_pos k)]
    by_cases hb : ((creds.drop pos).take (k + 1)).length < k + 1
    · rw [if_pos hb]
      simp
    · rw [if_neg hb]
      have hle : ((creds.drop pos).take (k + 1)).length ≤ k + 1 := by
        simp [List.length_take]
      have heq : ((creds.drop pos).take (k + 1)).length = k + 1 :=
        Nat.le_antisymm hle (Nat.le_of_not_lt hb)
      simp only [fetchLoop, List.nil_append]
      rw [heq, if_neg (Nat.lt_irrefl (k + 1))]

theorem fetchSdk_eq_slice {α : Type} (creds : List α) (pos limit cap : Nat)
    (h1 : 1 ≤ limit) (h2 : limit ≤ cap) :
    fetchSdk creds pos limit cap =
      ((creds.drop pos).take (min creds.length limit),
       pos + ((creds.drop pos).take (min creds.length limit)).length) := by
  have hlim : ¬ limit = 0 := Nat.pos_iff_ne_zero.mp h1
  have hmin : min limit cap = limit := Nat.min_eq_left h2
  have hcard : min limit creds.length = min creds.length limit := Nat.min_comm _ _
  simp only [fetchSdk, if_neg hlim, hmin, hcard]
  exact fetchLoop_chunk_eq_card creds pos (min creds.length limit)

theorem drop_min_len {α : Type} (l : List α) (n : Nat) :
    l.drop (min n l.length) = l.drop n := by
  rcases Nat.le_total n l.length with h | h
  · rw [Nat.min_eq_left h]
  · rw [Nat.min_eq_right h, List.drop_eq_nil_of_le h,
        List.drop_eq_nil_of_le (Nat.le_refl _)]

theorem take_min_len {α : Type} (l l' : List α) (c : Nat)
    (h : l'.length ≤ l.length) :
    l'.take (min l.length c) = l'.take c := by
  rcases Nat.le_total c l.length with hc | hc
  · rw [Nat.min_eq_right hc]
  · rw [Nat.min_eq_left hc, List.take_of_length_le h,
        List.take_of_length_le (Nat.le_trans h hc)]

/-- C1 counterexample.  The claim states that for every chunk cap ≥ 1 the
chunked `get_credentials` returns exactly `max(0, min(count, N - start))`
items (the slice), and that `count = 0` yields the empty sequence.  With
cap 2, `get_credentials(0, 3)` over 4 matching credentials returns 4 items
(the loop extends by whole chunks past the target), not `min 3 4 = 3`; and
`get_credentials(0, 0)` returns all 4 items (`limit or record_count` turns
a zero count into "fetch everything"), not the empty sequence. -/
theorem c1_counterexample :
    (get_credentials_sdk 2 0 3 [0, 1, 2, 3]).length = 4 ∧
    ¬ (get_credentials_sdk 2 0 3 [0, 1, 2, 3]).length =
        min 3 (([0, 1, 2, 3] : List Nat).length - 0) ∧
    get_credentials_sdk 2 0 0 [0, 1, 2, 3] = [0, 1, 2, 3] ∧
    ([0, 1, 2, 3] : List Nat) ≠ [] := by
  refine ⟨by decide, by decide, by decide, by decide⟩

/-- C1 amended.  Restricted to `1 ≤ count ≤ cap` and `start ≤ cap`, the
chunked `IndySdkHolder.get_credentials` returns exactly the slice
`[start : start + count]` of the backing result set, so exactly
`min count (N - start)` items; outside that range the loop can over-fetch
whole chunks, and `count = 0` deliberately fetches the entire remainder.
The single-fetch `IndyHolder.get_credentials` returns the exact slice for
all `start` and `count`. -/
theorem c1_amended {α : Type} (cap start count : Nat) (creds : List α)
    (h1 : 1 ≤ count) (h2 : count ≤ cap) (h3 : start ≤ cap) :
    get_credentials_sdk cap start count creds = (creds.drop start).take count ∧
    (get_credentials_sdk cap start count creds).length =
      min count (creds.length - start) ∧
    ∀ (s c : Nat) (l : List α),
      get_credentials_simple s c l = (l.drop s).take c := by
  have hsimple : ∀ (s c : Nat) (l : List α),
      get_credentials_simple s c l = (l.drop s).take c := by
    intro s c l
    simp only [get_credentials_simple]
    by_cases hs : 0 < s
    · rw [if_pos hs, drop_min_len]
    · rw [if_neg hs]
      have : s = 0 := Nat.eq_zero_of_not_pos hs
      rw [this]
  have hmain : get_credentials_sdk cap start count creds =
      (creds.drop start).take count := by
    simp only [get_credentials_sdk]
    have hpos1 : (if 0 < start then (fetchSdk creds 0 start cap).2 else 0) =
        min creds.length start := by
      by_cases hs : 0 < start
      · rw [if_pos hs, fetchSdk_eq_slice creds 0 start cap hs h3]
        simp [List.length_take, List.length_drop, Nat.min_comm]
      · rw [if_neg hs]
        have : start = 0 := Nat.eq_zero_of_not_pos hs
        simp [this]
    rw [hpos1, fetchSdk_eq_slice creds _ count cap h1 h2]
    have hdrop : creds.drop (min creds.length start) = creds.drop start := by
      rw [Nat.min_comm, drop_min_len]
    rw [hdrop]
    exact take_min_len creds (creds.drop start) count
      (by rw [List.length_drop]; exact Nat.sub_le _ _)
  refine ⟨hmain, ?_, hsimple⟩
  rw [hmain]
  simp [List.length_take, List.length_drop]

/-- C1 witness: the amended statement instantiated at cap 256, start 2,
count 3 over a 6-element result set. -/
theorem c1_witness :
    (1 ≤ 3 ∧ 3 ≤ 256 ∧ 2 ≤ 256) ∧
    (get_credentials_sdk 256 2 3 [10, 11, 12, 13, 14, 15] =
        (([10, 11, 12, 13, 14, 15] : List Nat).drop 2).take 3 ∧
      (get_credentials_sdk 256 2 3 [10, 11, 12, 13, 14, 15]).length =
        min 3 (([10, 11, 12, 13, 14, 15] : List Nat).length - 2) ∧
      ∀ (s c : Nat) (l : List Nat),
        get_credentials_simple s c l = (l.drop s).take c) :=
  ⟨⟨by decide, by decide, by decide⟩,
   c1_amended 256 2 3 [10, 11, 12, 13, 14, 15] (by decide) (by decide)
     (by decide)⟩

/-- Lexicographic string comparison on character lists, embedding Python's
`<=` on `str` (code-point lexicographic order), used by `sorted` with the
tuple key in `get_credentials_for_presentation_request_by_referent`. -/
def strLe : List Char → List Char → Bool
  | [], _ => true
  | _ :: _, [] => false
  | x :: xs, y :: ys => if x = y then strLe xs ys else decide (x < y)

theorem strLe_total : ∀ a b : List Char, strLe a b = true ∨ strLe b a = true := by
  intro a
  induction a with
  | nil => intro b; left; rfl
  | cons x xs ih =>
    intro b
    cases b with
    | nil => right; rfl
    | cons y ys =>
      by_cases hxy : x = y
      · subst hxy
        rcases ih ys with h | h
        · left; simpa [strLe] using h
        · right; simpa [strLe] using h
      · rcases Ne.lt_or_lt hxy with h | h
        · left; simp [strLe, hxy, h]
        · right; simp [strLe, Ne.symm hxy, h]

theorem strLe_nil_right : ∀ a : List Char, strLe a [] = true → a = [] := by
  intro a h
  cases a with
  | nil => rfl
  | cons x xs => simp [strLe] at h

theorem strLe_antisymm :
    ∀ a b : List Char, strLe a b = true → strLe b a = true → a = b := by
  intro a
  induction a with
  | nil =>
    intro b _ hb
    exact (strLe_nil_right b hb).symm
  | cons x xs ih =>
    intro b hab hba
    cases b with
    | nil => simp [strLe] at hab
    | cons y ys =>
      by_cases hxy : x = y
      · subst hxy
        simp only [strLe, if_pos rfl] at hab hba
        rw [ih ys hab hba]
      · simp only [strLe, if_neg hxy, if_neg (Ne.symm hxy),
          decide_eq_true_eq] at hab hba
        exact absurd hba (lt_asymm hab)

theorem strLe_trans :
    ∀ a b c : List Char, strLe a b = true → strLe b c = true →
      strLe a c = true := by
  intro a
  induction a with
  | nil => intro b c _ _; rfl
  | cons x xs ih =>
    intro b c hab hbc
    cases b with
    | nil => simp [strLe] at hab
    | cons y ys =>
      cases c with
      | nil => simp [strLe] at hbc
      | cons z zs =>
        by_cases hxy : x = y <;> by_cases hyz : y = z
        · subst hxy; subst hyz
          simp only [strLe, if_pos rfl] at hab hbc ⊢
          exact ih ys zs hab hbc
        · subst hxy
          simp only [strLe, if_neg hyz] at hbc
          simp only [strLe, if_neg hyz]
          exact hbc
        · subst hyz
          simp only [strLe, if_neg hxy] at hab
          simp only [strLe, if_neg hxy]
          exact hab
        · simp only [strLe, if_neg hxy, if_neg hyz, decide_eq_true_eq]
            at hab hbc
          have hxz : x < z := lt_trans hab hbc
          have : ¬ x = z := ne_of_lt hxz
          simp [strLe, this, hxz]

/-- Stable insertion of one element into a list sorted by `le`, used to
embed Python's `sorted` (all sort keys in this development are distinct,
so any correct sort produces the same list). -/
def insortBy {α : Type} (le : α → α → Bool) (x : α) : List α → List α
  | [] => [x]
  | y :: ys => if le x y then x :: y :: ys else y :: insortBy le x ys

/-- Insertion sort by `le`, embedding Python's `sorted(..., key=...)`. -/
def sortBy {α : Type} (le : α → α → Bool) (l : List α) : List α :=
  l.foldr (insortBy le) []

theorem mem_insortBy {α : Type} (le : α → α → Bool) (x : α) :
    ∀ (l : List α) (z : α), z ∈ insortBy le x l → z = x ∨ z ∈ l := by
  intro l
  induction l with
  | nil =>
    intro z hz
    simp [insortBy] at hz
    exact Or.inl hz
  | cons y ys ih =>
    intro z hz
    simp only [insortBy] at hz
    by_cases h : le x y = true
    · rw [if_pos h] at hz
      rcases List.mem_cons.mp hz with h1 | h1
      · exact Or.inl h1
      · exact Or.inr h1
    · rw [if_neg h] at hz
      rcases List.mem_cons.mp hz with h1 | h1
      · exact Or.inr (by simp [h1])
      · rcases ih z h1 with h2 | h2
        · exact Or.inl h2
        · exact Or.inr (by simp [h2])

theorem pairwise_insortBy {α : Type} (le : α → α → Bool)
    (htot : ∀ a b, le a b = true ∨ le b a = true)
    (htrans : ∀ a b c, le a b = true → le b c = true → le a c = true)
    (x : α) :
    ∀ l : List α, l.Pairwise (fun a b => le a b = true) →
      (insortBy le x l).Pairwise (fun a b => le a b = true) := by
  intro l
  induction l with
  | nil => intro _; simp [insortBy]
  | cons y ys ih =>
    intro hp
    rcases List.pairwise_cons.mp hp with ⟨hy, hys⟩
    simp only [insortBy]
    by_cases h : le x y = true
    · rw [if_pos h]
      refine List.pairwise_cons.mpr ⟨?_, hp⟩
      intro z hz
      rcases List.mem_cons.mp hz with h1 | h1
      · subst h1; exact h
      · exact htrans x y z h (hy z h1)
    · rw [if_neg h]
      refine List.pairwise_cons.mpr ⟨?_, ih hys⟩
      intro z hz
      rcases mem_insortBy le x (ys) z hz with h1 | h1
      · rw [h1]
        rcases htot x y with h2 | h2
        · exact absurd h2 h
        · exact h2
      · exact hy z h1

theorem pairwise_sortBy {α : Type} (le : α → α → Bool)
    (htot : ∀ a b, le a b = true ∨ le b a = true)
    (htrans : ∀ a b c, le a b = true → le b c = true → le a c = true)
    (l : List α) :
    (sortBy le l).Pairwise (fun a b => le a b = true) := by
  induction l with
  | nil => simp [sortBy]
  | cons x xs ih => exact pairwise_insortBy le htot htrans x _ ih

/-- A credential as fetched from the wallet for a presentation request:
its wallet id (`cred_info.referent`) and optional revocation-registry id
(`cred_info.rev_reg_id`). -/
structure FCred where
  credId : String
  revRegId : Option String
deriving DecidableEq

/-- An entry of `creds_dict`: the credential's public info plus its
`presentation_referents`.  Python stores the referents in a `set`, whose
iteration order is unspecified; the embedding determinizes that set as a
canonically sorted duplicate-free list (see `canonInsert`). -/
structure MCred where
  credId : String
  revRegId : Option String
  prefts : List String
deriving DecidableEq

/-- A presentation request, reduced to the referent keys of
`requested_attributes` and `requested_predicates` (all the search logic
uses). -/
structure PresReq where
  requestedAttributes : List String
  requestedPredicates : List String

/-- Insert a referent into the canonical (sorted, duplicate-free) list
representation of the Python `presentation_referents` set. -/
def canonInsert (r : String) : List String → List String
  | [] => [r]
  | x :: xs =>
    if r = x then x :: xs
    else if strLe r.toList x.toList then r :: x :: xs
    else x :: canonInsert r xs

/-- One merge step of the accumulation loop: the first time a credential
id is seen its referent set is `{reft}`; on later sightings `reft` is
added to the existing entry's set (an update in place, preserving the
`OrderedDict` insertion order). -/
def mergeCred (dict : List (String × MCred)) (reft : String) (c : FCred) :
    List (String × MCred) :=
  if dict.any (fun kv => kv.1 == c.credId) then
    dict.map (fun kv =>
      if kv.1 == c.credId then
        (kv.1, { kv.2 with prefts := canonInsert reft kv.2.prefts })
      else kv)
  else dict ++ [(c.credId, ⟨c.credId, c.revRegId, [reft]⟩)]

/-- Merge every fetched credential of one referent into `creds_dict`. -/
def mergeAll (dict : List (String × MCred)) (reft : String)
    (creds : List FCred) : List (String × MCred) :=
  creds.foldl (fun d c => mergeCred d reft c) dict

/-- One wallet fetch call for a proof-request search: fails when the call
counter hits `failAt`, otherwise returns the next `min(n, remaining)`
eligible credentials for the referent, the new cursor position, and the
new call counter. -/
def prFetchCall (avail : List FCred) (failAt : Option Nat)
    (pos calls n : Nat) : Except Unit (List FCred × Nat × Nat) :=
  if failAt = some calls then .error ()
  else
    let batch := (avail.drop pos).take n
    .ok (batch, pos + batch.length, calls + 1)

/-- Embeds the inner `fetch` loop of
`IndySdkHolder.get_credentials_for_presentation_request_by_referent`
(src/aries_cloudagent/indy/sdk/holder.py lines 205-223):
`CHUNK = min(IndyHolder.CHUNK, limit or IndyHolder.CHUNK)`; loop
`while not limit or len(creds) < limit`, extending by whole batches and
breaking on a short batch. -/
def prFetchLoop (avail : List FCred) (failAt : Option Nat) (CHUNK limit : Nat) :
    List FCred → Nat → Nat → Nat → Except Unit (List FCred × Nat × Nat)
  | acc, pos, calls, 0 => .ok (acc, pos, calls)
  | acc, pos, calls, fuel + 1 =>
    if limit = 0 ∨ acc.length < limit then
      match prFetchCall avail failAt pos calls CHUNK with
      | .error e => .error e
      | .ok (batch, pos', calls') =>
        if batch.length < CHUNK then .ok (acc ++ batch, pos', calls')
        else prFetchLoop avail failAt CHUNK limit (acc ++ batch) pos' calls' fuel
    else .ok (acc, pos, calls)

/-- One call of the proof-request `fetch` helper, with the chunk cap
(`IndyHolder.CHUNK`, 256 in the repository) as the `cap` parameter. -/
def prFetch (avail : List FCred) (failAt : Option Nat)
    (pos limit cap calls : Nat) : Except Unit (List FCred × Nat × Nat) :=
  let CHUNK := min cap (if limit = 0 then cap else limit)
  prFetchLoop avail failAt CHUNK limit [] pos calls (avail.length + limit + 1)

/-- The per-referent accumulation loop (src/aries_cloudagent/indy/sdk/
holder.py lines 243-258): for each referent, skip `start` entries if
`start > 0`, collect up to the remaining budget `count - len(creds_dict)`,
merge into the ordered dict, and break once the dict reaches `count`
entries. -/
def byRefLoop (cap start count : Nat) (wallet : String → List FCred)
    (failAt : Option Nat) :
    List String → List (String × MCred) → Nat →
      Except Unit (List (String × MCred) × Nat)
  | [], dict, calls => .ok (dict, calls)
  | r :: rest, dict, calls =>
    let avail := wallet r
    match (if 0 < start then prFetch avail failAt 0 start cap calls
           else .ok ([], 0, calls)) with
    | .error e => .error e
    | .ok (_, pos1, calls1) =>
      match prFetch avail failAt pos1 (count - dict.length) cap calls1 with
      | .error e => .error e
      | .ok (fetched, _, calls2) =>
        let dict' := mergeAll dict r fetched
        if count ≤ dict'.length then .ok (dict', calls2)
        else byRefLoop cap start count wallet failAt rest dict' calls2

/-- Sort key comparison for the final ordering
(src/aries_cloudagent/indy/sdk/holder.py lines 268-281): Python tuple
comparison on `(cred_info.rev_reg_id or "", cred_info.referent)`. -/
def mcredLe (c d : MCred) : Bool :=
  if (c.revRegId.getD "").toList = (d.revRegId.getD "").toList then
    strLe c.credId.toList d.credId.toList
  else strLe (c.revRegId.getD "").toList (d.revRegId.getD "").toList

/-- Whether a credential has a (truthy) revocation-registry id — Python
`cred_info["rev_reg_id"] or ""` treats both `None` and `""` as absent. -/
def hasRevReg (c : MCred) : Bool :=
  decide (¬ c.revRegId.getD "" = "")

/-- Embeds
`IndySdkHolder.get_credentials_for_presentation_request_by_referent`
(src/aries_cloudagent/indy/sdk/holder.py lines 185-282) over a wallet
modelled as the per-referent eligible credential lists, with `failAt`
injecting a wallet failure at the given fetch call.  The returned `Nat`
counts `prover_close_credentials_search_for_proof_req` calls: the source
closes in a `finally`, so exactly one close happens on the success path
and on every error path. -/
def byReferentRun (cap start count : Nat) (req : PresReq)
    (referents : List String) (wallet : String → List FCred)
    (failAt : Option Nat) : Except Unit (List MCred) × Nat :=
  let refts := if referents.isEmpty
    then req.requestedAttributes ++ req.requestedPredicates else referents
  match byRefLoop cap start count wallet failAt refts [] 0 with
  | .error e => (.error e, 1)
  | .ok (dict, _) =>
    (.ok ((sortBy mcredLe (dict.map (fun kv => kv.2))).take count), 1)

theorem string_toList_inj {s t : String} (h : s.toList = t.toList) : s = t := by
  cases s
  cases t
  exact congrArg String.mk (by simpa [String.toList] using h)

theorem mcredLe_total (c d : MCred) :
    mcredLe c d = true ∨ mcredLe d c = true := by
  by_cases h : (c.revRegId.getD "").toList = (d.revRegId.getD "").toList
  · simp only [mcredLe, if_pos h, if_pos h.symm]
    exact strLe_total _ _
  · simp only [mcredLe, if_neg h, if_neg (Ne.symm h)]
    exact strLe_total _ _

theorem mcredLe_trans (c d e : MCred) (h1 : mcredLe c d = true)
    (h2 : mcredLe d e = true) : mcredLe c e = true := by
  by_cases hcd : (c.revRegId.getD "").toList = (d.revRegId.getD "").toList <;>
    by_cases hde : (d.revRegId.getD "").toList = (e.revRegId.getD "").toList
  · rw [mcredLe, if_pos hcd] at h1
    rw [mcredLe, if_pos hde] at h2
    rw [mcredLe, if_pos (hcd.trans hde)]
    exact strLe_trans _ _ _ h1 h2
  · rw [mcredLe, if_neg hde] at h2
    rw [mcredLe, if_neg (fun h' => hde (hcd ▸ h')), hcd]
    exact h2
  · rw [mcredLe, if_neg hcd] at h1
    rw [mcredLe, if_neg (fun h' => hcd (hde ▸ h')), ← hde]
    exact h1
  · rw [mcredLe, if_neg hcd] at h1
    rw [mcredLe, if_neg hde] at h2
    have hce : ¬ (c.revRegId.getD "").toList = (e.revRegId.getD "").toList := by
      intro h'
      exact hcd (strLe_antisymm _ _ h1 (h' ▸ h2))
    rw [mcredLe, if_neg hce]
    exact strLe_trans _ _ _ h1 h2

theorem mcredLe_imp (c d : MCred) (h : mcredLe c d = true) :
    (hasRevReg c = true → hasRevReg d = true) ∧
    (c.revRegId.getD "" = d.revRegId.getD "" →
      strLe c.credId.toList d.credId.toList = true) := by
  by_cases hk : (c.revRegId.getD "").toList = (d.revRegId.getD "").toList
  · have hkey : c.revRegId.getD "" = d.revRegId.getD "" := string_toList_inj hk
    rw [mcredLe, if_pos hk] at h
    exact ⟨fun hc => by rw [hasRevReg, ← hkey]; exact hc, fun _ => h⟩
  · rw [mcredLe, if_neg hk] at h
    constructor
    · intro hc
      by_contra hd
      have hdnil : d.revRegId.getD "" = "" := by
        simpa [hasRevReg] using hd
      rw [hdnil] at h
      have : (c.revRegId.getD "").toList = [] :=
        strLe_nil_right _ (by simpa using h)
      have hcnil : c.revRegId.getD "" = "" := string_toList_inj this
      simp [hasRevReg, hcnil] at hc
    · intro hkey
      exact absurd (congrArg String.toList hkey) hk

/-- C2 counterexample.  The claim states that among credentials tied on
the "has a revocation-registry id" key, credential ids are ascending in
the final truncated list.  The code sorts by `(rev_reg_id or "",
cred_id)`, so two revocable credentials with distinct registry ids sort
by registry id, not credential id: for credentials id "b" in registry
"R1" and id "a" in registry "R2", the result is ["b", "a"], with both
entries revocable and "b" > "a". -/
theorem c2_counterexample :
    (byReferentRun 256 0 10 ⟨[], []⟩ ["r"]
        (fun _ => [⟨"b", some "R1"⟩, ⟨"a", some "R2"⟩]) none).1 =
      .ok [⟨"b", some "R1", ["r"]⟩, ⟨"a", some "R2", ["r"]⟩] ∧
    hasRevReg ⟨"b", some "R1", ["r"]⟩ = true ∧
    hasRevReg ⟨"a", some "R2", ["r"]⟩ = true ∧
    strLe "b".toList "a".toList = false := by
  refine ⟨rfl, by decide, by decide, by decide⟩

/-- C2 amended.  In the final truncated list returned by the sdk variant
of `get_credentials_for_presentation_request_by_referent`, no credential
with a (truthy) revocation-registry id precedes one without; among
credentials with the SAME registry-id key, credential ids are ascending
(the full sort key is the pair `(rev_reg_id or "", cred_id)`); and the
result has at most `count` entries (the first `count` of this order). -/
theorem c2_amended (cap start count : Nat) (req : PresReq)
    (referents : List String) (wallet : String → List FCred)
    (failAt : Option Nat) (out : List MCred)
    (h : (byReferentRun cap start count req referents wallet failAt).1 =
      .ok out) :
    out.Pairwise (fun c d =>
      (hasRevReg c = true → hasRevReg d = true) ∧
      (c.revRegId.getD "" = d.revRegId.getD "" →
        strLe c.credId.toList d.credId.toList = true)) ∧
    out.length ≤ count := by
  rw [byReferentRun] at h
  rcases hb : byRefLoop cap start count wallet failAt
      (if referents.isEmpty
        then req.requestedAttributes ++ req.requestedPredicates
        else referents) [] 0 with e | p
  · rw [hb] at h
    simp at h
  · rw [hb] at h
    simp only [Except.ok.injEq] at h
    subst h
    constructor
    · refine List.Pairwise.imp (fun hab => mcredLe_imp _ _ hab) ?_
      exact List.Pairwise.sublist (List.take_sublist _ _)
        (pairwise_sortBy mcredLe mcredLe_total mcredLe_trans _)
    · simp [List.length_take]

/-- C2 witness: the amended statement at a concrete run with one
irrevocable and one revocable credential, which the code orders
irrevocable-first. -/
theorem c2_witness :
    (byReferentRun 256 0 10 ⟨[], []⟩ ["r"]
        (fun _ => [⟨"y", some "R1"⟩, ⟨"x", none⟩]) none).1 =
      .ok [⟨"x", none, ["r"]⟩, ⟨"y", some "R1", ["r"]⟩] ∧
    (([⟨"x", none, ["r"]⟩, ⟨"y", some "R1", ["r"]⟩] : List MCred).Pairwise
        (fun c d =>
          (hasRevReg c = true → hasRevReg d = true) ∧
          (c.revRegId.getD "" = d.revRegId.getD "" →
            strLe c.credId.toList d.credId.toList = true)) ∧
      ([⟨"x", none, ["r"]⟩, ⟨"y", some "R1", ["r"]⟩] : List MCred).length ≤
        10) :=
  ⟨rfl, c2_amended 256 0 10 ⟨[], []⟩ ["r"]
    (fun _ => [⟨"y", some "R1"⟩, ⟨"x", none⟩]) none
    [⟨"x", none, ["r"]⟩, ⟨"y", some "R1", ["r"]⟩] rfl⟩

theorem canonInsert_pair (a b : String) (h : ¬ a = b) :
    canonInsert b [a] = canonInsert a [b] ∧
    (canonInsert b [a]).toFinset = ({a, b} : Finset String) ∧
    (canonInsert b [a]).length = 2 := by
  have hba : ¬ b = a := fun h' => h h'.symm
  by_cases hle : strLe b.toList a.toList = true
  · have hab : ¬ strLe a.toList b.toList = true := by
      intro h'
      exact h (string_toList_inj (strLe_antisymm _ _ h' hle))
    simp only [canonInsert, if_neg hba, if_neg h, if_pos hle,
      if_neg hab]
    refine ⟨by simp, ?_, by simp⟩
    simp [Finset.pair_comm]
  · have hab : strLe a.toList b.toList = true := by
      rcases strLe_total a.toList b.toList with h' | h'
      · exact h'
      · exact absurd h' hle
    simp only [canonInsert, if_neg hba, if_neg h, if_neg hle, if_pos hab]
    refine ⟨by simp, ?_, by simp⟩
    simp

/-- C3 counterexample.  The claim states the entry's
`presentation_referents` sequence is the referents in first-seen order,
regardless of which referent the loop processes first, and that every
credential eligible under both referents gets both labels.  Two failures:
(1) the code stores the referents in a Python `set` (unordered;
determinized canonically in this embedding), so the resulting sequence is
a function of the set alone and cannot equal the first-seen order for
both processing orders — processing referent "b" before "a" over a
credential "c" eligible for both, the first-seen order is ["b", "a"],
but the code returns ["a", "b"]; (2) the shared budget can stop the
loop before the second referent: with count 2 and credentials "d" and
"c" both eligible under referents "r1" and "r2", the
`len(creds_dict) >= count` break fires after "r1", and credential "c"
ends up with referent set {"r1"} only — not {"r1", "r2"} in any
order. -/
theorem c3_counterexample :
    (byReferentRun 256 0 2 ⟨[], []⟩ ["b", "a"]
        (fun _ => [⟨"c", none⟩]) none).1 =
      .ok [⟨"c", none, ["a", "b"]⟩] ∧
    (["a", "b"] : List String) ≠ ["b", "a"] ∧
    (byReferentRun 256 0 2 ⟨[], []⟩ ["r1", "r2"]
        (fun _ => [⟨"d", none⟩, ⟨"c", none⟩]) none).1 =
      .ok [⟨"c", none, ["r1"]⟩, ⟨"d", none, ["r1"]⟩] ∧
    (["r1"] : List String) ≠ ["r1", "r2"] ∧
    (["r1"] : List String) ≠ ["r2", "r1"] :=
  ⟨rfl, by decide, rfl, by decide, by decide⟩

theorem mergeAll_single_hit (cid reft : String) (rr : Option String)
    (m : MCred) :
    mergeAll [(cid, m)] reft [⟨cid, rr⟩] =
      [(cid, { m with prefts := canonInsert reft m.prefts })] := by
  simp [mergeAll, mergeCred]

/-- One run of the sdk by-referent search over two referents with a
single credential eligible under each, within budget: the first referent
appends the entry with referent set {first}, the second sighting of the
same credential id extends that entry's set in place (a union, not a
replacement), and the loop's budget break does not fire before the
second referent. -/
theorem byReferentRun_single (a b cid : String) (rr : Option String) :
    byReferentRun 256 0 2 ⟨[], []⟩ [a, b] (fun _ => [⟨cid, rr⟩]) none =
      (.ok [⟨cid, rr, canonInsert b [a]⟩], 1) := by
  have h1 : byRefLoop 256 0 2 (fun _ => [⟨cid, rr⟩]) none [a, b] [] 0 =
      byRefLoop 256 0 2 (fun _ => [⟨cid, rr⟩]) none [b]
        [(cid, ⟨cid, rr, [a]⟩)] 1 := rfl
  have h3 : byRefLoop 256 0 2 (fun _ => [⟨cid, rr⟩]) none [b]
      [(cid, ⟨cid, rr, [a]⟩)] 1 =
      .ok ([(cid, ⟨cid, rr, canonInsert b [a]⟩)], 2) := by
    show (if 2 ≤ (mergeAll [(cid, ⟨cid, rr, [a]⟩)] b [⟨cid, rr⟩]).length
          then Except.ok
            ((mergeAll [(cid, ⟨cid, rr, [a]⟩)] b [⟨cid, rr⟩]), 2)
          else byRefLoop 256 0 2 (fun _ => [⟨cid, rr⟩]) none []
            (mergeAll [(cid, ⟨cid, rr, [a]⟩)] b [⟨cid, rr⟩]) 2) =
        .ok ([(cid, ⟨cid, rr, canonInsert b [a]⟩)], 2)
    rw [mergeAll_single_hit cid b rr ⟨cid, rr, [a]⟩]
    rfl
  have h4 := h1.trans h3
  simp [byReferentRun, h4, sortBy, insortBy]

/-- C3 amended.  For a presentation request with two distinct referents
that both accept a credential C, WHEN the loop fetches C under both
referents — the shared budget not yet reached after the first referent,
here C the only eligible credential and count 2, proved for an arbitrary
credential (any id, any revocation-registry id) and arbitrary referents —
the merged result contains exactly one entry for C, whose referent
collection equals the unordered set of the two referents (the sequence
order is derived from a Python `set` and is unspecified, not first-seen),
and the whole result is identical whichever referent the loop processes
first: the second fetch of the same credential id merges into the
existing record, a union, not a replacement.  When the budget fills
after the first referent, iteration stops and C keeps only the first
referent (see the counterexample). -/
theorem c3_amended (a b : String) (h : ¬ a = b) (cid : String)
    (rr : Option String) :
    (byReferentRun 256 0 2 ⟨[], []⟩ [a, b]
        (fun _ => [⟨cid, rr⟩]) none).1 =
      .ok [⟨cid, rr, canonInsert b [a]⟩] ∧
    (byReferentRun 256 0 2 ⟨[], []⟩ [b, a]
        (fun _ => [⟨cid, rr⟩]) none).1 =
      .ok [⟨cid, rr, canonInsert a [b]⟩] ∧
    canonInsert b [a] = canonInsert a [b] ∧
    (canonInsert b [a]).toFinset = ({a, b} : Finset String) ∧
    (canonInsert b [a]).length = 2 := by
  refine ⟨?_, ?_, (canonInsert_pair a b h).1, (canonInsert_pair a b h).2.1,
    (canonInsert_pair a b h).2.2⟩
  · rw [byReferentRun_single a b cid rr]
  · rw [byReferentRun_single b a cid rr]

/-- C3 witness: the amended statement at referents "r1", "r2" and a
revocable credential "cred-1". -/
theorem c3_witness :
    (¬ "r1" = "r2") ∧
    ((byReferentRun 256 0 2 ⟨[], []⟩ ["r1", "r2"]
        (fun _ => [⟨"cred-1", some "R"⟩]) none).1 =
      .ok [⟨"cred-1", some "R", canonInsert "r2" ["r1"]⟩] ∧
    (byReferentRun 256 0 2 ⟨[], []⟩ ["r2", "r1"]
        (fun _ => [⟨"cred-1", some "R"⟩]) none).1 =
      .ok [⟨"cred-1", some "R", canonInsert "r1" ["r2"]⟩] ∧
    canonInsert "r2" ["r1"] = canonInsert "r1" ["r2"] ∧
    (canonInsert "r2" ["r1"]).toFinset = ({"r1", "r2"} : Finset String) ∧
    (canonInsert "r2" ["r1"]).length = 2) :=
  ⟨by decide, c3_amended "r1" "r2" (by decide) "cred-1" (some "R")⟩

/-- One wallet fetch call for `prover_search_credentials` cursors: fails
when the call counter hits `failAt`, otherwise returns the next
`min(n, remaining)` items, the new cursor position and call counter. -/
def wFetchCall {α : Type} (creds : List α) (failAt : Option Nat)
    (pos calls n : Nat) : Except Unit (List α × Nat × Nat) :=
  if failAt = some calls then .error ()
  else
    let batch := (creds.drop pos).take n
    .ok (batch, pos + batch.length, calls + 1)

/-- The inner `fetch` loop of `IndySdkHolder.get_credentials` with wallet
failures threaded through (same control flow as `fetchLoop`). -/
def fetchLoopE {α : Type} (creds : List α) (failAt : Option Nat)
    (CHUNK card : Nat) :
    List α → Nat → Nat → Nat → Except Unit (List α × Nat × Nat)
  | acc, pos, calls, 0 => .ok (acc, pos, calls)
  | acc, pos, calls, fuel + 1 =>
    if acc.length < card then
      match wFetchCall creds failAt pos calls CHUNK with
      | .error e => .error e
      | .ok (batch, pos', calls') =>
        if batch.length < CHUNK then .ok (acc ++ batch, pos', calls')
        else fetchLoopE creds failAt CHUNK card (acc ++ batch) pos' calls' fuel
    else .ok (acc, pos, calls)

/-- One call of the `fetch` helper with failure injection. -/
def fetchSdkE {α : Type} (creds : List α) (failAt : Option Nat)
    (pos limit cap calls : Nat) : Except Unit (List α × Nat × Nat) :=
  let N := creds.length
  let lim := if limit = 0 then N else limit
  let CHUNK := min N (min lim cap)
  let card := min lim N
  fetchLoopE creds failAt CHUNK card [] pos calls (card + 1)

/-- Embeds `IndySdkHolder.get_credentials` with wallet failures, tracking
`prover_close_credentials_search` calls.  In the source (lines 166-183)
the close call sits after the fetches inside the `with` block with NO
`try`/`finally`, so an error raised by a fetch propagates without the
close ever executing; the close count is 1 only on the success path.
(`IndyHolder.get_credentials` of src/aries_cloudagent/holder/indy.py has
the same structure: its close at line 158 is not in a `finally` either.) -/
def get_credentials_run {α : Type} (cap start count : Nat) (creds : List α)
    (failAt : Option Nat) : Except Unit (List α) × Nat :=
  match (if 0 < start then fetchSdkE creds failAt 0 start cap 0
         else .ok ([], 0, 0)) with
  | .error e => (.error e, 0)
  | .ok (_, pos1, calls1) =>
    match fetchSdkE creds failAt pos1 count cap calls1 with
    | .error e => (.error e, 0)
    | .ok (res, _, _) => (.ok res, 1)

/-- C5: searched sessions are NOT always released.
`get_credentials_for_presentation_request_by_referent` closes its search
handle in a `finally`, hence exactly once on every path (last conjunct,
for every failure point and all arguments).  But `get_credentials` has no
`finally`: when the wallet raises during the collect loop (here at the
second fetch call), the error propagates with zero close calls — the
session handle leaks, contradicting the claim.  The success path does
close exactly once. -/
theorem c5_session_release :
    (get_credentials_run 2 0 3 [0, 1, 2, 3] (some 1)).1 = .error () ∧
    (get_credentials_run 2 0 3 [0, 1, 2, 3] (some 1)).2 = 0 ∧
    (get_credentials_run 2 0 3 ([0, 1, 2, 3] : List Nat) none).2 = 1 ∧
    ∀ (cap start count : Nat) (req : PresReq) (referents : List String)
      (wallet : String → List FCred) (failAt : Option Nat),
      (byReferentRun cap start count req referents wallet failAt).2 = 1 := by
  refine ⟨rfl, by decide, by decide, ?_⟩
  intro cap start count req referents wallet failAt
  rw [byReferentRun]
  rcases byRefLoop cap start count wallet failAt
      (if referents.isEmpty
        then req.requestedAttributes ++ req.requestedPredicates
        else referents) [] 0 with e | p
  · rfl
  · rfl

/-- Embeds Python `tag.lstrip("~")` (strip ALL leading tildes), as used by
`BaseRecord.get_tag_map` (src/aries_cloudagent/messaging/models/
base_record.py lines 104-107). -/
def lstripTilde (s : String) : String :=
  String.mk (s.toList.dropWhile (fun c => c = '~'))

/-- Embeds the key transformation of `BaseRecord.strip_tag_prefix`
(base_record.py lines 421-426): `k[1:] if "~" in k else k` — drop the
FIRST character whenever a tilde occurs ANYWHERE in the key. -/
def stripTagKey (k : String) : String :=
  if k.toList.contains '~' then String.mk (k.toList.drop 1) else k

/-- Embeds `BaseRecord.strip_tag_prefix` on a tag dict (association
list). -/
def stripTagMap (tags : List (String × String)) : List (String × String) :=
  tags.map (fun kv => (stripTagKey kv.1, kv.2))

/-- Embeds `BaseRecord.get_tag_map`: `{tag.lstrip("~"): tag for tag in
TAG_NAMES}`, the bare-name to stored-key mapping, as an association list
(exact dict behaviour when the bare names are pairwise distinct). -/
def get_tag_map (tagNames : List String) : List (String × String) :=
  tagNames.map (fun t => (lstripTilde t, t))

/-- Embeds `BaseRecord.record_tags`: the stored tag dict `{tag:
getattr(self, prop)}` built from the tag map, with `values` giving each
bare property's value. -/
def recordTags (tagNames : List String) (values : String → String) :
    List (String × String) :=
  (get_tag_map tagNames).map (fun bt => (bt.2, values bt.1))

/-- A tag name for which `k[1:] if "~" in k else k` agrees with
`lstrip("~")`: either tilde-free, or starting with a single tilde. -/
def goodTagName (t : String) : Bool :=
  match t.toList with
  | [] => true
  | c :: rest =>
    if c = '~' then ! (rest.head? == some '~')
    else ! ((c :: rest).contains '~')

theorem mk_toList (s : String) : String.mk s.toList = s := rfl

theorem dropWhile_no_head (rest : List Char) (h : rest.head? ≠ some '~') :
    rest.dropWhile (fun c => c = '~') = rest := by
  cases rest with
  | nil => rfl
  | cons r rs =>
    have hr : ¬ r = '~' := fun h' => h (by simp [h'])
    simp [List.dropWhile_cons, hr]

theorem stripTagKey_eq_lstripTilde (t : String)
    (h : goodTagName t = true) : stripTagKey t = lstripTilde t := by
  cases t with
  | mk data =>
    show (if data.contains '~' then String.mk (data.drop 1)
          else String.mk data) =
        String.mk (data.dropWhile (fun c => c = '~'))
    cases data with
    | nil => rfl
    | cons c rest =>
      have hgood : (if c = '~' then ! (rest.head? == some '~')
          else ! ((c :: rest).contains '~')) = true := h
      by_cases hc : c = '~'
      · subst hc
        rw [if_pos rfl] at hgood
        have hh : rest.head? ≠ some '~' := by simpa using hgood
        have hcon : (('~' :: rest).contains '~') = true := by simp
        rw [if_pos hcon]
        simp [List.dropWhile_cons, dropWhile_no_head rest hh]
      · rw [if_neg hc] at hgood
        have hcon : ((c :: rest).contains '~') = false := by
          simpa using hgood
        rw [if_neg (by rw [hcon]; exact Bool.false_ne_true)]
        simp [List.dropWhile_cons, hc]

/-- C4 counterexample.  The claim states that for every tag name set,
stripping after prefixing is the identity.  For a (hypothetical) record
type declaring the tag name "a~b" (a tilde that is not a leading marker),
`lstrip("~")` leaves "a~b" unchanged, but `strip_tag_prefix` sees a tilde
somewhere in the key and drops the FIRST character, producing "~b": the
round trip is not the identity. -/
theorem c4_counterexample :
    stripTagMap (recordTags ["a~b"] (fun _ => "v")) = [("~b", "v")] ∧
    (get_tag_map ["a~b"]).map (fun bt => (bt.1, (fun _ => "v") bt.1)) =
      [("a~b", "v")] ∧
    (("~b", "v") : String × String) ≠ ("a~b", "v") := by
  refine ⟨by decide, by decide, by decide⟩

/-- C4 amended.  For tag name sets in which every declared name is either
tilde-free or starts with a single tilde (its only tilde being the
leading unencrypted marker) — which covers every record type in the
repository, where `TAG_NAMES` is `{"state"}` — stripping the marker after
prefixing the bare names through the tag map returns exactly the original
bare names and values. -/
theorem c4_amended (tagNames : List String) (values : String → String)
    (h : ∀ t ∈ tagNames, goodTagName t = true) :
    stripTagMap (recordTags tagNames values) =
      (get_tag_map tagNames).map (fun bt => (bt.1, values bt.1)) := by
  induction tagNames with
  | nil => rfl
  | cons t ts ih =>
    have hts : ∀ u ∈ ts, goodTagName u = true := by
      intro u hu
      exact h u (List.mem_cons_of_mem t hu)
    have ht : goodTagName t = true := h t (List.mem_cons_self t ts)
    simp only [stripTagMap, recordTags, get_tag_map, List.map_cons,
      List.cons.injEq] at ih ⊢
    exact ⟨by rw [stripTagKey_eq_lstripTilde t ht], ih hts⟩

/-- C4 witness: the amended statement at the repository's declared tag
name set extended with a marked name. -/
theorem c4_witness :
    (∀ t ∈ ["state", "~tilde"], goodTagName t = true) ∧
    stripTagMap (recordTags ["state", "~tilde"] (fun _ => "v")) =
      (get_tag_map ["state", "~tilde"]).map
        (fun bt => (bt.1, (fun _ => "v") bt.1)) :=
  ⟨by decide, c4_amended ["state", "~tilde"] (fun _ => "v") (by decide)⟩

/-- The mutable fields of a `BaseRecord` that `save`/`post_save` read and
write: `_id`, `state`, `_last_state` (the webhook baseline), the
timestamps, and the record type's `WEBHOOK_TOPIC` class attribute. -/
structure RecordState where
  id : Option String
  state : Option String
  lastState : Option String
  createdAt : Option String
  updatedAt : Option String
  webhookTopic : Option String
deriving DecidableEq

/-- Modelled from the spec: `BaseRecord.serialize` (inherited from
`BaseModel`, outside src/) dumps the record through its schema; a saved
record's payload is non-empty (it carries at least the timestamps), which
is all `send_webhook`'s `if not payload` check observes.  The encoding
here is a non-empty stand-in string. -/
def serializeRec (r : RecordState) : String :=
  String.mk ('s' :: (r.state.getD "").toList)

/-- Python truthiness of an optional string (`bool(webhook_topic)`). -/
def truthyOpt (o : Option String) : Bool :=
  match o with
  | none => false
  | some s => decide (¬ s = "")

/-- Embeds `BaseRecord.send_webhook` (base_record.py lines 383-401): no-op
on an empty payload or an absent/empty topic, otherwise one delivery to
`(topic, payload)`.  The responder collaborator is taken as present (with
it absent the method is a no-op and no claim distinguishes the two). -/
def sendWebhook (topic : Option String) (payload : String) :
    List (String × String) :=
  if payload = "" then []
  else
    match topic with
    | none => []
    | some t => if t = "" then [] else [(t, payload)]

/-- Embeds `BaseRecord.post_save` (base_record.py lines 339-360): when the
caller passes no webhook flag, emit iff the topic is truthy AND
(new_record OR the state changed from the baseline); a caller-supplied
flag forces emission on or off. -/
def postSave (r : RecordState) (newRecord : Bool) (lastState : Option String)
    (webhook : Option Bool) : List (String × String) :=
  let wh := match webhook with
    | none => truthyOpt r.webhookTopic &&
        (newRecord || decide (¬ lastState = r.state))
    | some b => b
  if wh then sendWebhook r.webhookTopic (serializeRec r) else []

/-- The outcome of one `BaseRecord.save` call: the record object after the
call (Python mutates it in place even when persistence fails), the
webhook deliveries, and whether persistence succeeded. -/
structure SaveResult where
  record : RecordState
  events : List (String × String)
  ok : Bool
deriving DecidableEq

/-- Embeds `BaseRecord.save` (base_record.py lines 295-337): set
`updated_at`; on an unsaved record allocate an id (`uuid4`, modelled as
the non-empty `newId` argument) and set `created_at`; persist
(`persistOk` models whether the storage call raises); on success run
`post_save` with the OLD `_last_state` and then advance the baseline.
When persistence raises, the error propagates before `post_save`, so no
webhook fires and the baseline stays (the partially mutated object is
kept, as in Python). -/
def save (r : RecordState) (now newId : String) (webhook : Option Bool)
    (persistOk : Bool) : SaveResult :=
  let r1 := { r with updatedAt := some now }
  let pair := match r1.id with
    | some _ => (r1, false)
    | none => ({ r1 with id := some newId, createdAt := some now }, true)
  let r2 := pair.1
  let newRecord := pair.2
  if persistOk then
    let events := postSave r2 newRecord r2.lastState webhook
    ⟨{ r2 with lastState := r2.state }, events, true⟩
  else ⟨r2, [], false⟩

theorem serializeRec_ne_empty (r : RecordState) : ¬ serializeRec r = "" := by
  intro h
  have : ('s' :: (r.state.getD "").toList) = [] :=
    congrArg String.toList h
  exact List.cons_ne_nil _ _ this

/-- C6: the webhook policy of `save`.  For a record type with a declared
(non-empty) webhook topic: the first `save` on an unsaved record assigns
the non-empty id and emits exactly one webhook; a second `save` with the
state unchanged emits none; a third `save` with the state changed emits
one.  In general, after a successful persist with no caller flag, a
webhook fires iff the record was new OR its state differs from the
baseline; a caller flag forces it on or off; the baseline then advances
to the current state; and a failed persist emits nothing. -/
theorem c6_webhook_policy (t newId now1 now2 now3 s0 s1 : String)
    (ht : ¬ t = "") (hid : ¬ newId = "") (hs : ¬ some s1 = some s0) :
    ((save ⟨none, some s0, some s0, none, none, some t⟩ now1 newId none
        true).record.id = some newId) ∧
    (save ⟨none, some s0, some s0, none, none, some t⟩ now1 newId none
        true).events.length = 1 ∧
    (save (save ⟨none, some s0, some s0, none, none, some t⟩ now1 newId
        none true).record now2 newId none true).events = [] ∧
    (save { (save (save ⟨none, some s0, some s0, none, none, some t⟩ now1
        newId none true).record now2 newId none true).record with
          state := some s1 } now3 newId none true).events.length = 1 ∧
    ∀ (r : RecordState) (now nid : String), r.webhookTopic = some t →
      (((save r now nid none true).events ≠ []) ↔
        (r.id = none ∨ ¬ r.lastState = r.state)) ∧
      (save r now nid (some true) true).events.length = 1 ∧
      (save r now nid (some false) true).events = [] ∧
      (save r now nid none true).record.lastState =
        (save r now nid none true).record.state ∧
      ∀ w : Option Bool, (save r now nid w false).events = [] := by
  have hgen : ∀ (r : RecordState) (now nid : String),
      r.webhookTopic = some t →
      (((save r now nid none true).events ≠ []) ↔
        (r.id = none ∨ ¬ r.lastState = r.state)) ∧
      (save r now nid (some true) true).events.length = 1 ∧
      (save r now nid (some false) true).events = [] ∧
      (save r now nid none true).record.lastState =
        (save r now nid none true).record.state ∧
      ∀ w : Option Bool, (save r now nid w false).events = [] := by
    intro r now nid htop
    have hpay : ¬ serializeRec
        { r with updatedAt := some now } = "" := serializeRec_ne_empty _
    rcases hr : r.id with _ | i
    · constructor
      · simp [save, hr, postSave, sendWebhook, truthyOpt, htop, ht,
          serializeRec_ne_empty _]
      · refine ⟨?_, ?_, ?_, ?_⟩
        · simp [save, hr, postSave, sendWebhook, htop, ht,
            serializeRec_ne_empty _]
        · simp [save, hr, postSave]
        · simp [save, hr]
        · intro w; simp [save, hr]
    · constructor
      · by_cases hst : r.lastState = r.state
        · simp [save, hr, postSave, sendWebhook, truthyOpt, htop, ht, hst]
        · simp [save, hr, postSave, sendWebhook, truthyOpt, htop, ht, hst,
            serializeRec_ne_empty _]
      · refine ⟨?_, ?_, ?_, ?_⟩
        · simp [save, hr, postSave, sendWebhook, htop, ht,
            serializeRec_ne_empty _]
        · simp [save, hr, postSave]
        · simp [save, hr]
        · intro w; simp [save, hr]
  refine ⟨?_, ?_, ?_, ?_, hgen⟩
  · simp [save, postSave]
  · simp [save, postSave, sendWebhook, truthyOpt, ht, serializeRec_ne_empty _]
  · simp [save, postSave, sendWebhook, truthyOpt, ht]
  · have hs' : ¬ s0 = s1 := fun h => hs (by rw [h])
    simp [save, postSave, sendWebhook, truthyOpt, ht, hs,
      serializeRec_ne_empty _, hs']

/-- C6 witness: the three-save scenario at concrete topic, id, times and
states. -/
theorem c6_witness :
    ((¬ "topic" = "") ∧ (¬ "id-1" = "") ∧
      (¬ some "done" = some "init")) ∧
    (((save ⟨none, some "init", some "init", none, none, some "topic"⟩
        "t1" "id-1" none true).record.id = some "id-1") ∧
    (save ⟨none, some "init", some "init", none, none, some "topic"⟩ "t1"
        "id-1" none true).events.length = 1 ∧
    (save (save ⟨none, some "init", some "init", none, none, some "topic"⟩
        "t1" "id-1" none true).record "t2" "id-1" none true).events = [] ∧
    (save { (save (save ⟨none, some "init", some "init", none, none,
        some "topic"⟩ "t1" "id-1" none true).record "t2" "id-1" none
        true).record with state := some "done" } "t3" "id-1" none
        true).events.length = 1 ∧
    ∀ (r : RecordState) (now nid : String),
      r.webhookTopic = some "topic" →
      (((save r now nid none true).events ≠ []) ↔
        (r.id = none ∨ ¬ r.lastState = r.state)) ∧
      (save r now nid (some true) true).events.length = 1 ∧
      (save r now nid (some false) true).events = [] ∧
      (save r now nid none true).record.lastState =
        (save r now nid none true).record.state ∧
      ∀ w : Option Bool, (save r now nid w false).events = []) :=
  ⟨⟨by decide, by decide, by decide⟩,
   c6_webhook_policy "topic" "id-1" "t1" "t2" "t3" "init" "done"
     (by decide) (by decide) (by decide)⟩

/-- The holder-layer error taxonomy that `delete_credential` can surface:
a storage error escaping the metadata cleanup, `WalletNotFoundError` for a
missing credential, or the wrapped domain error for any other wallet
failure. -/
inductive HolderErr where
  | storageErr : HolderErr
  | walletNotFound : String → HolderErr
  | wrapped : String → HolderErr
deriving DecidableEq

/-- Wallet-and-storage state for the credential lifecycle operations:
the stored credential ids, the non-secret metadata records (id → tags),
and two failure injections — `metaGetFails` makes the metadata
`get_record` raise a generic `StorageError` (NOT a
`StorageNotFoundError`), `credDeleteBackendFails` makes
`prover_delete_credential` raise a non-NotFound `IndyError`. -/
structure WalletSt where
  creds : List String
  metaRecs : List (String × List (String × String))
  metaGetFails : Bool
  credDeleteBackendFails : Bool
deriving DecidableEq

/-- The deterministic metadata record id
`"attribute-mime-types::" + credential_id`
(`IndyHolder.RECORD_TYPE_MIME_TYPES`). -/
def mimeKey (credential_id : String) : String :=
  "attribute-mime-types::" ++ credential_id

/-- Association-list lookup, embedding a keyed record store fetch. -/
def lookupA {β : Type} (k : String) (l : List (String × β)) : Option β :=
  (l.find? (fun kv => kv.1 == k)).map (fun kv => kv.2)

/-- Embeds `IndySdkHolder.delete_credential`
(src/aries_cloudagent/indy/sdk/holder.py lines 337-369; the
`IndyHolder` variant of src/aries_cloudagent/holder/indy.py lines
258-288 is identical in structure): first `get_record` + `delete_record`
on the metadata record, swallowing `StorageNotFoundError` only (a generic
`StorageError` propagates); then `prover_delete_credential`, surfacing
`WalletItemNotFound` as `WalletNotFoundError` and wrapping other wallet
errors.  The `Bool` reports whether the credential delete was attempted. -/
def deleteCredential (w : WalletSt) (credential_id : String) :
    Except HolderErr WalletSt × Bool :=
  if w.metaGetFails then (.error .storageErr, false)
  else
    let w1 := match lookupA (mimeKey credential_id) w.metaRecs with
      | some _ => { w with metaRecs :=
          w.metaRecs.filter (fun kv => ! (kv.1 == mimeKey credential_id)) }
      | none => w
    if w.credDeleteBackendFails then
      (.error (.wrapped "Error when deleting credential"), true)
    else if w1.creds.contains credential_id then
      (.ok { w1 with creds :=
        w1.creds.filter (fun c => ! (c == credential_id)) }, true)
    else (.error (.walletNotFound credential_id), true)

/-- The OBSERVABLE Python value `get_mime_type` returns: `None`, the
full tag map, or one attribute's declared MIME type.  `.pynone` stands
for Python `None` from EVERY path that produces it — a swallowed storage
error as well as `tags.get(attr)` for an attribute with no declared MIME
type; the caller cannot tell these apart. -/
inductive MimeOut where
  | pynone : MimeOut
  | pymap : List (String × String) → MimeOut
  | pystr : String → MimeOut
deriving DecidableEq

/-- Embeds `IndySdkHolder.get_mime_type`
(src/aries_cloudagent/indy/sdk/holder.py lines 371-393; the `IndyHolder`
variant is identical in structure): fetch the metadata record, and on ANY
`StorageError` — `StorageNotFoundError` for an absent record, but equally
a generic backend failure — return `None`; otherwise return the tag map,
or `tags.get(attr)` when an attribute is named — which is itself Python
`None` when `attr` has no entry in the map, collapsing to the same
observable `.pynone`. -/
def get_mime_type (w : WalletSt) (credential_id : String)
    (attr : Option String) : MimeOut :=
  if w.metaGetFails then .pynone
  else
    match lookupA (mimeKey credential_id) w.metaRecs with
    | none => .pynone
    | some tags =>
      match attr with
      | some a =>
        match lookupA a tags with
        | none => .pynone
        | some v => .pystr v
      | none => .pymap tags

/-- C7: `delete_credential` deletes the metadata record best-effort —
`StorageNotFoundError` there is swallowed (an absent metadata record does
not stop the credential delete, which succeeds), while any other failure
during the cleanup propagates as that storage error WITHOUT attempting
the credential delete; then the credential itself is deleted, and
`WalletItemNotFound` there IS surfaced as `WalletNotFoundError`. -/
theorem c7_delete_credential :
    (∀ (w : WalletSt) (cid : String), w.metaGetFails = true →
      deleteCredential w cid = (.error .storageErr, false)) ∧
    (deleteCredential ⟨["c"], [], false, false⟩ "c" =
      (.ok ⟨[], [], false, false⟩, true)) ∧
    (∀ (w : WalletSt) (cid : String), w.metaGetFails = false →
      w.credDeleteBackendFails = false → w.creds.contains cid = false →
      (deleteCredential w cid).1 = .error (.walletNotFound cid) ∧
      (deleteCredential w cid).2 = true) ∧
    (∀ (w : WalletSt) (cid : String), w.metaGetFails = false →
      w.credDeleteBackendFails = false → w.creds.contains cid = true →
      (deleteCredential w cid).2 = true ∧
      ∀ e, ¬ (deleteCredential w cid).1 = .error e) := by
  refine ⟨?_, rfl, ?_, ?_⟩
  · intro w cid h
    simp [deleteCredential, h]
  · intro w cid h1 h2 h3
    have h3' : ¬ cid ∈ w.creds := by simpa using h3
    rcases hm : lookupA (mimeKey cid) w.metaRecs with _ | tags <;>
      simp [deleteCredential, h1, h2, h3', hm]
  · intro w cid h1 h2 h3
    have h3' : cid ∈ w.creds := by simpa using h3
    rcases hm : lookupA (mimeKey cid) w.metaRecs with _ | tags <;>
      simp [deleteCredential, h1, h2, h3', hm]

/-- C7 witness: the conjuncts discharged at concrete wallet states — a
failing metadata backend, a missing credential, and a present credential
with a metadata record. -/
theorem c7_witness :
    (deleteCredential ⟨["c"], [], true, false⟩ "c" =
      (.error .storageErr, false)) ∧
    (deleteCredential ⟨["c"], [], false, false⟩ "c" =
      (.ok ⟨[], [], false, false⟩, true)) ∧
    ((deleteCredential ⟨[], [], false, false⟩ "c").1 =
        .error (.walletNotFound "c") ∧
      (deleteCredential ⟨[], [], false, false⟩ "c").2 = true) ∧
    ((deleteCredential ⟨["c"], [(mimeKey "c", [("a", "image/png")])],
        false, false⟩ "c").2 = true ∧
      ∀ e, ¬ (deleteCredential ⟨["c"],
        [(mimeKey "c", [("a", "image/png")])], false, false⟩ "c").1 =
          .error e) :=
  ⟨c7_delete_credential.1 ⟨["c"], [], true, false⟩ "c" rfl,
   c7_delete_credential.2.1,
   c7_delete_credential.2.2.1 ⟨[], [], false, false⟩ "c" rfl rfl rfl,
   c7_delete_credential.2.2.2 ⟨["c"], [(mimeKey "c", [("a", "image/png")])],
     false, false⟩ "c" rfl rfl rfl⟩

/-- C8 counterexample.  The claim states `get_mime_type` returns `None`
EXACTLY when no metadata record exists, and that after `delete_credential`
the call follows the backend NotFound contract rather than the
"no metadata" `None` contract.  Both parts fail, and `None` has a third
source besides: the source catches the whole `StorageError` hierarchy, so
a generic backend failure returns `None` while the metadata record
exists; with the record present and the backend healthy, an attribute
with no entry in the MIME map also returns `None` (`tags.get(attr)`);
and after a successful `delete_credential` the lookup's
`StorageNotFoundError` is swallowed the same way, returning `None` — no
NotFound is surfaced. -/
theorem c8_counterexample :
    get_mime_type ⟨[], [(mimeKey "c", [("a", "image/png")])], true, false⟩
        "c" none = .pynone ∧
    (lookupA (mimeKey "c")
        [(mimeKey "c", [("a", "image/png")])]).isSome = true ∧
    get_mime_type ⟨[], [(mimeKey "c", [("a", "image/png")])], false,
        false⟩ "c" (some "z") = .pynone ∧
    (deleteCredential ⟨["c"], [(mimeKey "c", [("a", "image/png")])],
        false, false⟩ "c").1 = .ok ⟨[], [], false, false⟩ ∧
    get_mime_type ⟨[], [], false, false⟩ "c" none = .pynone ∧
    get_mime_type ⟨[], [], false, false⟩ "c" (some "a") = .pynone :=
  ⟨rfl, rfl, rfl, rfl, rfl, rfl⟩

/-- C8 amended.  `get_mime_type` returns the observable Python `None`
iff the metadata lookup raises ANY storage error — no metadata record,
or a backend failure — OR the record exists but the named attribute has
no declared MIME type (`tags.get(attr)` is `None`); the three cases are
indistinguishable to the caller.  In particular, after
`delete_credential` removes the metadata record a subsequent
`get_mime_type` returns `None` under the same "no metadata" contract
(no NotFound is surfaced).  With the record present, the backend
healthy, and the attribute declared (or no attribute named), the
attribute's MIME type (or the full map) comes back. -/
theorem c8_mime_type_none :
    (∀ (w : WalletSt) (cid : String) (attr : Option String),
      get_mime_type w cid attr = .pynone ↔
        (w.metaGetFails = true ∨ lookupA (mimeKey cid) w.metaRecs = none ∨
          ∃ tags, lookupA (mimeKey cid) w.metaRecs = some tags ∧
            ∃ a, attr = some a ∧ lookupA a tags = none)) ∧
    ((deleteCredential ⟨["c"], [(mimeKey "c", [("a", "image/png")])],
        false, false⟩ "c").1 = .ok ⟨[], [], false, false⟩ ∧
      get_mime_type ⟨[], [], false, false⟩ "c" none = .pynone) ∧
    (∀ (w : WalletSt) (cid : String) (tags : List (String × String)),
      w.metaGetFails = false → lookupA (mimeKey cid) w.metaRecs = some tags →
      get_mime_type w cid none = .pymap tags ∧
      ∀ (a v : String), lookupA a tags = some v →
        get_mime_type w cid (some a) = .pystr v) := by
  refine ⟨?_, ⟨rfl, rfl⟩, ?_⟩
  · intro w cid attr
    rcases hf : w.metaGetFails with _ | _
    · rcases hm : lookupA (mimeKey cid) w.metaRecs with _ | tags
      · simp [get_mime_type, hf, hm]
      · rcases attr with _ | a
        · simp [get_mime_type, hf, hm]
        · rcases ha : lookupA a tags with _ | v <;>
            simp [get_mime_type, hf, hm, ha]
    · simp [get_mime_type, hf]
  · intro w cid tags h1 h2
    exact ⟨by simp [get_mime_type, h1, h2], fun a v ha => by
      simp [get_mime_type, h1, h2, ha]⟩

/-- C8 witness: the amended statement's quantified parts discharged at a
concrete wallet state with one metadata record and a declared
attribute. -/
theorem c8_witness :
    (get_mime_type ⟨[], [(mimeKey "c", [("a", "image/png")])], false,
        false⟩ "c" (some "z") = .pynone ↔
      ((⟨[], [(mimeKey "c", [("a", "image/png")])], false,
          false⟩ : WalletSt).metaGetFails = true ∨
        lookupA (mimeKey "c")
          [(mimeKey "c", [("a", "image/png")])] = none ∨
        ∃ tags, lookupA (mimeKey "c")
            [(mimeKey "c", [("a", "image/png")])] = some tags ∧
          ∃ a, (some "z" : Option String) = some a ∧
            lookupA a tags = none)) ∧
    (get_mime_type ⟨[], [(mimeKey "c", [("a", "image/png")])], false,
        false⟩ "c" none = .pymap [("a", "image/png")] ∧
      ∀ (a v : String), lookupA a [("a", "image/png")] = some v →
        get_mime_type ⟨[], [(mimeKey "c", [("a", "image/png")])], false,
          false⟩ "c" (some a) = .pystr v) :=
  ⟨c8_mime_type_none.1 ⟨[], [(mimeKey "c", [("a", "image/png")])], false,
      false⟩ "c" (some "z"),
   c8_mime_type_none.2.2 ⟨[], [(mimeKey "c", [("a", "image/png")])],
      false, false⟩ "c" [("a", "image/png")] rfl rfl⟩

/-- Errors out of `create_revocation_state`: either the domain holder
error wrapping a cause with a fixed context message, or a raw backend
error that escaped unwrapped. -/
inductive RevErr where
  | wrapped : String → String → RevErr
  | raw : String → RevErr
deriving DecidableEq

/-- The fixed context message of the sdk variant's error handler. -/
def revStateMsg : String := "Error when constructing revocation state"

/-- Modelled from the spec: `IndyErrorHandler` (not under src/) is a
context manager that catches any engine (`IndyError`) failure raised
inside its block and re-raises it as the given domain error type carrying
the fixed context message and the original cause. -/
def withIndyErrorHandler {α : Type} (msg : String)
    (body : Except String α) : Except RevErr α :=
  match body with
  | .ok a => .ok a
  | .error e => .error (.wrapped msg e)

/-- Embeds `IndySdkHolder.create_revocation_state`
(src/aries_cloudagent/indy/sdk/holder.py lines 428-462): BOTH the
tails-reader resolution (`create_tails_reader`, modelled from the spec as
an external resolution step that may fail) and the engine call happen
inside the `with IndyErrorHandler("Error when constructing revocation
state", ...)` block.  The `Nat` counts engine invocations (no retry). -/
def create_revocation_state_sdk (tails : Except String Nat)
    (engine : Nat → Except String String) : Except RevErr String × Nat :=
  match tails with
  | .error e => (withIndyErrorHandler revStateMsg (.error e), 0)
  | .ok rdr => (withIndyErrorHandler revStateMsg (engine rdr), 1)

/-- Embeds `IndyHolder.create_revocation_state`
(src/aries_cloudagent/holder/indy.py lines 347-378): NO error handler —
both tails-reader resolution failures and engine failures propagate
unwrapped.  The `Nat` counts engine invocations (no retry). -/
def create_revocation_state_legacy (tails : Except String Nat)
    (engine : Nat → Except String String) : Except RevErr String × Nat :=
  match tails with
  | .error e => (.error (.raw e), 0)
  | .ok rdr =>
    (match engine rdr with
     | .error e => .error (.raw e)
     | .ok s => .ok s, 1)

/-- C9 counterexample.  The claim states that in `create_revocation_state`
both crypto-engine failures and tails-reader resolution failures are
wrapped into the domain holder error with the fixed context message.
The `IndyHolder` variant (src/aries_cloudagent/holder/indy.py lines
347-378) has no error handler at all: a failing tails-reader resolution
propagates as the raw error, not the wrapped domain error. -/
theorem c9_counterexample :
    (create_revocation_state_legacy (.error "tails io failure")
        (fun _ => .ok "state")).1 = .error (.raw "tails io failure") ∧
    RevErr.raw "tails io failure" ≠
      RevErr.wrapped revStateMsg "tails io failure" ∧
    (create_revocation_state_legacy (.ok 7)
        (fun _ => .error "engine failure")).1 =
      .error (.raw "engine failure") :=
  ⟨rfl, by decide, rfl⟩

/-- C9 amended.  `create_revocation_state` makes a single engine attempt
(no retries) in both variants.  In the sdk variant both crypto-engine
failures and tails-reader resolution failures are wrapped into the domain
holder error with the fixed message "Error when constructing revocation
state" and the original cause; the legacy variant propagates both kinds
unwrapped. -/
theorem c9_revocation_state :
    (∀ (tails : Except String Nat) (engine : Nat → Except String String),
      (create_revocation_state_sdk tails engine).2 ≤ 1 ∧
      (create_revocation_state_legacy tails engine).2 ≤ 1) ∧
    (∀ (e : String) (engine : Nat → Except String String),
      (create_revocation_state_sdk (.error e) engine).1 =
        .error (.wrapped revStateMsg e) ∧
      (create_revocation_state_legacy (.error e) engine).1 =
        .error (.raw e)) ∧
    (∀ (rdr : Nat) (e : String),
      (create_revocation_state_sdk (.ok rdr) (fun _ => .error e)).1 =
        .error (.wrapped revStateMsg e) ∧
      (create_revocation_state_legacy (.ok rdr) (fun _ => .error e)).1 =
        .error (.raw e)) ∧
    (∀ (rdr : Nat) (s : String),
      create_revocation_state_sdk (.ok rdr) (fun _ => .ok s) = (.ok s, 1) ∧
      create_revocation_state_legacy (.ok rdr) (fun _ => .ok s) =
        (.ok s, 1)) := by
  refine ⟨?_, ?_, ?_, ?_⟩
  · intro tails engine
    rcases tails with e | rdr
    · exact ⟨Nat.zero_le 1, Nat.zero_le 1⟩
    · exact ⟨Nat.le_refl 1, Nat.le_refl 1⟩
  · intro e engine
    exact ⟨rfl, rfl⟩
  · intro rdr e
    exact ⟨rfl, rfl⟩
  · intro rdr s
    exact ⟨rfl, rfl⟩

/-- A post-filter value: a scalar to compare for equality (non-alt mode),
or a sequence of alternatives (alt mode).  Record field values are
optional strings (`record.get(k)` yields Python `None` for an absent
key). -/
inductive PFVal where
  | scalar : Option String → PFVal
  | alts : List (Option String) → PFVal
deriving DecidableEq

/-- Python `record.get(k) == v` against a filter value.  A scalar compares
by equality; comparing a field value against a sequence is always unequal
in Python (`str != list`). -/
def eqVal (rv : Option String) (fv : PFVal) : Bool :=
  match fv with
  | .scalar v => rv == v
  | .alts _ => false

/-- Python `record.get(k) in alts` for an alt filter value.  Only
sequences of alternatives are meaningful here (Python membership in a
scalar would be a substring test or a TypeError; no caller in the
repository does that, and no theorem below exercises it). -/
def memVal (rv : Option String) (fv : PFVal) : Bool :=
  match fv with
  | .alts vs => vs.contains rv
  | .scalar _ => false

/-- Record field lookup: `record.get(k)`, `None` when absent. -/
def rget (record : List (String × Option String)) (k : String) :
    Option String :=
  (lookupA k (record.map (fun kv => (kv.1, kv.2)))).join

/-- Embeds `match_post_filter`
(src/aries_cloudagent/messaging/models/base_record.py lines 23-53): an
empty (`{}`) or absent (`None`) filter matches everything before
`positive`/`alt` are consulted; alt mode requires every listed field's
value in (resp. out of) its alternative set; non-alt mode returns
`not positive` at the first mismatching field, else `positive`. -/
def match_post_filter (record : List (String × Option String))
    (post_filter : Option (List (String × PFVal)))
    (positive : Bool) (alt : Bool) : Bool :=
  match post_filter with
  | none => true
  | some [] => true
  | some pf =>
    if alt then
      (positive && pf.all (fun kv => memVal (rget record kv.1) kv.2)) ||
      (! positive && pf.all (fun kv => ! memVal (rget record kv.1) kv.2))
    else
      if pf.all (fun kv => eqVal (rget record kv.1) kv.2) then positive
      else ! positive

/-- Embeds `BaseRecord.query` (base_record.py lines 251-293) over the
decoded candidate records the pushed-down tag filter returned: keep a
record iff it positively matches `post_filter_positive` AND negatively
matches (is not rejected by) `post_filter_negative`. -/
def queryRecords (candidates : List (String × List (String × Option String)))
    (pos neg : Option (List (String × PFVal))) (alt : Bool) :
    List (String × List (String × Option String)) :=
  candidates.filter (fun c =>
    match_post_filter c.2 pos true alt && match_post_filter c.2 neg false alt)

/-- Errors of `retrieve_by_tag_filter`. -/
inductive RetrieveErr where
  | notFound : RetrieveErr
  | duplicate : RetrieveErr
deriving DecidableEq

/-- Embeds `BaseRecord.retrieve_by_tag_filter` (base_record.py lines
211-249) over the decoded candidates: scan for post-filter matches;
zero matches raise NotFound, a second match raises Duplicate, one match
is returned. -/
def retrieve_by_tag_filter
    (candidates : List (String × List (String × Option String)))
    (post_filter : Option (List (String × PFVal))) :
    Except RetrieveErr (String × List (String × Option String)) :=
  match candidates.filter (fun c => match_post_filter c.2 post_filter true false) with
  | [] => .error .notFound
  | [x] => .ok x
  | _ => .error .duplicate

/-- C10: an empty or absent post-filter accepts every record value,
whatever the `positive` and `alt` flags; hence `query` with an empty
negative filter rejects nothing — it returns exactly the records the
positive filter alone admits — and `retrieve_by_tag_filter` with no
post-filter keeps every pushed-down candidate (all candidates count as
matches: none → NotFound, one → that record, several → Duplicate). -/
theorem c10_empty_post_filter :
    (∀ (record : List (String × Option String)) (p a : Bool),
      match_post_filter record none p a = true ∧
      match_post_filter record (some []) p a = true) ∧
    (∀ (candidates : List (String × List (String × Option String)))
        (pos : Option (List (String × PFVal))) (alt : Bool),
      queryRecords candidates pos none alt =
        candidates.filter (fun c => match_post_filter c.2 pos true alt) ∧
      queryRecords candidates pos (some []) alt =
        candidates.filter (fun c => match_post_filter c.2 pos true alt)) ∧
    (∀ candidates : List (String × List (String × Option String)),
      candidates.filter
        (fun c => match_post_filter c.2 none true false) = candidates) ∧
    (retrieve_by_tag_filter [] none = .error .notFound) ∧
    (∀ x : String × List (String × Option String),
      retrieve_by_tag_filter [x] none = .ok x) ∧
    (∀ (x y : String × List (String × Option String))
        (l : List (String × List (String × Option String))),
      retrieve_by_tag_filter (x :: y :: l) none = .error .duplicate) := by
  refine ⟨?_, ?_, ?_, rfl, ?_, ?_⟩
  · intro record p a
    exact ⟨rfl, rfl⟩
  · intro candidates pos alt
    constructor
    · simp [queryRecords, match_post_filter]
    · simp [queryRecords, match_post_filter]
  · intro candidates
    simp [match_post_filter]
  · intro x
    rfl
  · intro x y l
    show (match (x :: y :: l).filter
        (fun c => match_post_filter c.2 none true false) with
      | [] => Except.error RetrieveErr.notFound
      | [x] => Except.ok x
      | _ => Except.error RetrieveErr.duplicate) = .error .duplicate
    have : (x :: y :: l).filter
        (fun c => match_post_filter c.2 none true false) = x :: y ::
          l.filter (fun c => match_post_filter c.2 none true false) := by
      simp [match_post_filter]
    rw [this]
